import Mathlib

/-!
Shallow embedding of `server.py` (Web_Radio_Server): the `RadioStream`
class with its track catalog (`_load_tracks`, `_shuffle_tracks`,
`_next_track`), the transcode streaming loop of `_play_track`, and the
broadcaster (`broadcast`, `register_client`, `unregister_client`).

Conventions of the embedding:
* A track is its path, as the list of path components below the music root.
* The filesystem visible to `_load_tracks` is modelled three levels deep
  (top-level entries, entries of top-level directories, entries one level
  further down); `Path.glob` and `Path.iterdir` only ever inspect the
  first two levels.
* `random.shuffle` is the in-place Fisher-Yates shuffle of CPython,
  modelled with an explicit stream of random numbers; `random.random()`
  is modelled as a rational in `[0,1)`; `random.choice` picks the index
  `k % len` for an oracle-provided `k`.
* Python's unbounded recursion in `_next_track` is modelled with explicit
  fuel: a `none` result means the fuel was exhausted without the call
  returning a track.
* Clients (`aiohttp` response objects) are opaque identifiers (`Nat`);
  the Python `set` of clients is a duplicate-free list; whether
  `client.write(chunk)` raises is an oracle `fails : Nat → Nat → Bool`.
-/

namespace RadioServer

/-- A track is identified by its path below the music root. -/
abbrev Track := List String

/-- An entry two directory levels below the music root. -/
structure Ent2 where
  name : String
  isDir : Bool
deriving DecidableEq

/-- An entry one directory level below the music root (inside an album
folder); its `children` sit two levels down and are never globbed. -/
structure Ent1 where
  name : String
  isDir : Bool
  children : List Ent2
deriving DecidableEq

/-- A top-level entry of the music root. -/
structure Ent0 where
  name : String
  isDir : Bool
  children : List Ent1
deriving DecidableEq

/-- The directory tree under the music root. -/
abbrev FS := List Ent0

/-- Whether a name matches the glob pattern `*.mp3` (fnmatch semantics:
`*` matches any, possibly empty, run of characters — i.e. the name ends
in `.mp3`), stated on the character list of the name. -/
def isMp3 (s : String) : Bool := List.isSuffixOf ".mp3".data s.data

/-- `self.music_path.glob('*.mp3')` of line 34: every top-level entry
whose name matches, regardless of its type. -/
def globTopLevel (fs : FS) : List Track :=
  (fs.filter fun e => isMp3 e.name).map fun e => [e.name]

/-- `album_folders` of line 35: top-level entries that are directories. -/
def album_folders (fs : FS) : List Ent0 :=
  fs.filter fun e => e.isDir

/-- `folder.glob('*.mp3')` flattened over `album_folders`, line 36. -/
def globAlbums (fs : FS) : List Track :=
  (album_folders fs).flatMap fun f =>
    (f.children.filter fun c => isMp3 c.name).map fun c => [f.name, c.name]

/-! ### random.shuffle (CPython Fisher-Yates), with an oracle stream -/

/-- Exchange positions `i` and `j` of a list (`x[i], x[j] = x[j], x[i]`). -/
def swapAt (l : List α) (i j : Nat) : List α :=
  if h : i < l.length ∧ j < l.length then
    (l.set i (l.get ⟨j, h.2⟩)).set j (l.get ⟨i, h.1⟩)
  else l

/-- The loop of CPython `random.shuffle`: for `i` from `len-1` down to `1`,
swap `x[i]` with `x[j]` for a random `j ≤ i` drawn from the stream. -/
def fyGo (js : List Nat) : Nat → List α → List α
  | 0, l => l
  | i + 1, l => fyGo js.tail i (swapAt l (i + 1) (js.headD 0 % (i + 2)))

/-- `random.shuffle(l)` with the randomness stream `js`. -/
def shuffle (js : List Nat) (l : List α) : List α :=
  fyGo js (l.length - 1) l

/-! ### The catalog state of RadioStream -/

/-- The catalog fields of `RadioStream`: `self.tracks`,
`self.album_tracks`, `self.last_shuffle_time` (seconds). -/
structure Catalog where
  tracks : List Track
  album_tracks : List Track
  last_shuffle_time : Int
deriving DecidableEq

/-- `ALBUM_TRACK_CHANCE = 0.1`, line 16. -/
def ALBUM_TRACK_CHANCE : ℚ := 1 / 10

/-- `SORT_INTERVAL_HOURS = 7`, line 17. -/
def SORT_INTERVAL_HOURS : Int := 7

/-- `_shuffle_tracks` (lines 40-42): shuffles both pools in place and
touches nothing else. -/
def shuffle_tracks (js1 js2 : List Nat) (st : Catalog) : Catalog :=
  ⟨shuffle js1 st.tracks, shuffle js2 st.album_tracks, st.last_shuffle_time⟩

/-- `_load_tracks` (lines 33-38): replaces both pools with the globbed
listings, then `_shuffle_tracks`; `last_shuffle_time` is not touched. -/
def load_tracks (fs : FS) (js1 js2 : List Nat) (st : Catalog) : Catalog :=
  ⟨shuffle js1 (globTopLevel fs), shuffle js2 (globAlbums fs), st.last_shuffle_time⟩

/-- The reshuffle step of `_next_track` (lines 47-48): `_shuffle_tracks()`
followed by `self.last_shuffle_time = datetime.now()`. This composite is
what the spec calls `reshuffle()`. -/
def reshuffle (js1 js2 : List Nat) (now : Int) (st : Catalog) : Catalog :=
  ⟨shuffle js1 st.tracks, shuffle js2 st.album_tracks, now⟩

/-- The randomness and clock values one call of `_next_track` consumes. -/
structure RandState where
  now : Int
  draw : ℚ
  aIdx : Nat
  gIdx : Nat
  js1 : List Nat
  js2 : List Nat
  ljs1 : List Nat
  ljs2 : List Nat

/-- `random.choice(l)`: the element at an oracle-chosen in-range index;
`none` only on the empty list (where CPython raises IndexError). -/
def choice (k : Nat) (l : List α) : Option α :=
  l[k % l.length]?

/-- Lines 45-48 of `_next_track`: reshuffle (and stamp the time) iff at
least `SORT_INTERVAL_HOURS` have elapsed since `last_shuffle_time`. -/
def reshuffle_if (e : RandState) (st : Catalog) : Catalog :=
  if e.now - st.last_shuffle_time ≥ SORT_INTERVAL_HOURS * 3600 then
    reshuffle e.js1 e.js2 e.now st
  else st

/-- `_next_track` (lines 44-56). `env d` supplies the randomness and clock
of the call at recursion depth `d`, `fss d` the directory tree its
`_load_tracks` would see. The `fuel` argument is the remaining recursion
budget: the Python original recurses with no bound at line 56, so `none`
means the recursion outlived any given budget. -/
def next_track (env : Nat → RandState) (fss : Nat → FS) :
    Nat → Nat → Catalog → Option (Track × Catalog)
  | _, 0, _ => none
  | d, fuel + 1, st =>
    let e := env d
    let st1 := reshuffle_if e st
    if e.draw < ALBUM_TRACK_CHANCE ∧ st1.album_tracks ≠ [] then
      (choice e.aIdx st1.album_tracks).map fun t => (t, st1)
    else if st1.tracks ≠ [] then
      (choice e.gIdx st1.tracks).map fun t => (t, st1)
    else
      next_track env fss (d + 1) fuel (load_tracks (fss d) e.ljs1 e.ljs2 st1)

/-! ### Broadcaster (lines 133-154) -/

/-- The write attempts one `broadcast` call makes, in iteration order:
`for client in self.clients: ... await client.write(chunk)` attempts each
member of the set exactly once, whether or not the write raises. -/
def attempts (clients : List Nat) (chunk : Nat) : List (Nat × Nat) :=
  clients.map fun c => (c, chunk)

/-- The `to_remove` list of `broadcast`: the clients whose write raised
(`ConnectionResetError`, `CancelledError` or any other exception — all
three handlers append to `to_remove`). -/
def to_remove (fails : Nat → Nat → Bool) (clients : List Nat) (chunk : Nat) :
    List Nat :=
  clients.filter fun c => fails c chunk

/-- `broadcast` (lines 133-146): one full pass of write attempts, then
`self.clients.discard(client)` for each collected failure. Exceptions are
swallowed inside the loop, so the function always returns the new client
set normally. -/
def broadcast (fails : Nat → Nat → Bool) (clients : List Nat) (chunk : Nat) :
    List Nat :=
  (to_remove fails clients chunk).foldl (fun s c => s.erase c) clients

/-- Broadcaster state across calls: the client set plus, per client, the
chunks its `write` has received successfully. -/
structure BState where
  clients : List Nat
  rcv : Nat → List Nat

/-- One `broadcast(chunk)` call acting on a `BState`: a registered client
whose write does not raise receives the chunk; the set loses the failed
writers. -/
def bstep (fails : Nat → Nat → Bool) (st : BState) (chunk : Nat) : BState :=
  ⟨broadcast fails st.clients chunk,
   fun c =>
     if c ∈ st.clients ∧ fails c chunk = false then st.rcv c ++ [chunk]
     else st.rcv c⟩

/-- A sequence of `broadcast` calls, one per chunk, in order. -/
def brun (fails : Nat → Nat → Bool) : List Nat → BState → BState
  | [], st => st
  | ch :: rest, st => brun fails rest (bstep fails st ch)

/-- Every write attempt made during a sequence of `broadcast` calls. -/
def btrace (fails : Nat → Nat → Bool) : List Nat → BState → List (Nat × Nat)
  | [], _ => []
  | ch :: rest, st => attempts st.clients ch ++ btrace fails rest (bstep fails st ch)

/-- `register_client` (lines 148-150): `self.clients.add(client)` — a
no-op when the client is already in the set. -/
def register_client (c : Nat) (clients : List Nat) : List Nat :=
  if c ∈ clients then clients else clients ++ [c]

/-- `unregister_client` (lines 152-154): `self.clients.discard(client)`. -/
def unregister_client (c : Nat) (clients : List Nat) : List Nat :=
  clients.erase c

/-! ### The streaming loop of `_play_track` (lines 94-117) -/

/-- What the environment presents to one loop iteration: the process was
observed exited at the top of the loop, or the 8192-byte read returned a
non-empty chunk, an empty chunk (EOF), or timed out after 5 seconds. -/
inductive PlayEv where
  | exited (code : Int)
  | chunk (b : Nat)
  | empty
  | timeout
deriving DecidableEq

/-- Why the streaming loop stopped: the process had terminated, the stall
counter hit the maximum, or the event script ran out (the loop itself
would keep iterating). -/
inductive StopReason where
  | procExited (code : Int)
  | stalled
  | sourceEnd
deriving DecidableEq

/-- Result of the streaming loop: the chunks handed to `broadcast`, in
order; the final `consecutive_empty_reads` counter; why it stopped; and
the events it never consumed. -/
structure PlayResult where
  broadcasts : List Nat
  counter : Nat
  stop : StopReason
  leftover : List PlayEv
deriving DecidableEq

/-- `max_empty_reads = 10`, line 96. -/
def max_empty_reads : Nat := 10

/-- The `while True` loop of `_play_track` (lines 98-117), run against a
script of events; `n` is `consecutive_empty_reads`. A non-empty chunk
resets `n` and is broadcast; an empty read or timeout increments `n` and
stops the loop once `n` reaches `max_empty_reads`. -/
def play_loop : List PlayEv → Nat → PlayResult
  | [], n => ⟨[], n, .sourceEnd, []⟩
  | .exited c :: rest, n => ⟨[], n, .procExited c, rest⟩
  | .chunk b :: rest, _ =>
    let r := play_loop rest 0
    ⟨b :: r.broadcasts, r.counter, r.stop, r.leftover⟩
  | .empty :: rest, n =>
    if n + 1 ≥ max_empty_reads then ⟨[], n + 1, .stalled, rest⟩
    else play_loop rest (n + 1)
  | .timeout :: rest, n =>
    if n + 1 ≥ max_empty_reads then ⟨[], n + 1, .stalled, rest⟩
    else play_loop rest (n + 1)

/-! ### The `finally` block of `_play_track` (lines 120-131) -/

/-- How `process.terminate(); await process.wait()` behaves: it succeeds,
or raises `ProcessLookupError` because the process is already gone, or
raises some other exception. -/
inductive TermBehavior where
  | ok
  | procGone
  | otherFail
deriving DecidableEq

/-- What the `finally` block did. -/
structure DrainResult where
  requested : Bool
  waited : Bool
  endedNormally : Bool
deriving DecidableEq

/-- The `finally` block of `_play_track`: when `process.returncode is
None` it calls `terminate()` and awaits `wait()`, catching
`ProcessLookupError` (process already gone) and any other exception; in
every case the block completes and the play loop proceeds. -/
def drain_process (returncode : Option Int) (tb : TermBehavior) : DrainResult :=
  match returncode with
  | some _ => ⟨false, false, true⟩
  | none =>
    match tb with
    | .ok => ⟨true, true, true⟩
    | .procGone => ⟨true, false, true⟩
    | .otherFail => ⟨true, false, true⟩

/-! ### Spec-side definition for the loader claim -/

/-- Stated from the spec's words, for comparison with `globTopLevel`:
"the general pool contains exactly the `.mp3` files at the top level of
the music root" — files, i.e. non-directory entries, matching `*.mp3`. -/
def mp3FilesTopLevel (fs : FS) : List Track :=
  (fs.filter fun e => !e.isDir && isMp3 e.name).map fun e => [e.name]

/-! ### Shuffle permutes -/

lemma cons_get_set_perm :
    ∀ (t : List α) (m : Nat) (h : m < t.length) (a : α),
      List.Perm (t.get ⟨m, h⟩ :: t.set m a) (a :: t) := by
  intro t
  induction t with
  | nil => intro m h; exact absurd h (by simp)
  | cons b t ih =>
    intro m h a
    cases m with
    | zero => simpa using List.Perm.swap a b t
    | succ m =>
      have hm : m < t.length := by simpa using h
      have p1 : List.Perm (t.get ⟨m, hm⟩ :: b :: t.set m a)
          (b :: t.get ⟨m, hm⟩ :: t.set m a) := List.Perm.swap _ _ _
      have p2 : List.Perm (b :: t.get ⟨m, hm⟩ :: t.set m a) (b :: a :: t) :=
        (ih m hm a).cons b
      have p3 : List.Perm (b :: a :: t) (a :: b :: t) := List.Perm.swap _ _ _
      exact (p1.trans p2).trans p3

lemma set_set_swap_perm :
    ∀ (l : List α) (i j : Nat) (hi : i < l.length) (hj : j < l.length),
      List.Perm ((l.set i (l.get ⟨j, hj⟩)).set j (l.get ⟨i, hi⟩)) l := by
  intro l
  induction l with
  | nil => intro i j hi; exact absurd hi (by simp)
  | cons a t ih =>
    intro i j hi hj
    match i, j with
    | 0, 0 => simp
    | 0, m + 1 =>
      have hm : m < t.length := by simpa using hj
      simpa using cons_get_set_perm t m hm a
    | m + 1, 0 =>
      have hm : m < t.length := by simpa using hi
      simpa using cons_get_set_perm t m hm a
    | m + 1, k + 1 =>
      have hm : m < t.length := by simpa using hi
      have hk : k < t.length := by simpa using hj
      simpa using ((ih m k hm hk).cons a)

lemma swapAt_perm (l : List α) (i j : Nat) : List.Perm (swapAt l i j) l := by
  unfold swapAt
  split
  · next h => exact set_set_swap_perm l i j h.1 h.2
  · exact List.Perm.refl l

lemma fyGo_perm (js : List Nat) :
    ∀ (i : Nat) (l : List α), List.Perm (fyGo js i l) l := by
  intro i
  induction i generalizing js with
  | zero => intro l; exact List.Perm.refl l
  | succ i ih =>
    intro l
    exact (ih js.tail _).trans (swapAt_perm l (i + 1) (js.headD 0 % (i + 2)))

lemma shuffle_perm (js : List Nat) (l : List α) : List.Perm (shuffle js l) l :=
  fyGo_perm js (l.length - 1) l

lemma shuffle_nil (js : List Nat) : shuffle js ([] : List α) = [] := rfl

/-! ### Broadcaster lemmas -/

lemma foldl_erase_eq_filter [DecidableEq α] :
    ∀ (rem l : List α), l.Nodup →
      rem.foldl (fun s c => s.erase c) l = l.filter fun c => !rem.contains c := by
  intro rem
  induction rem with
  | nil => intro l _; simp
  | cons r rem ih =>
    intro l hl
    have : (r :: rem).foldl (fun s c => s.erase c) l
        = rem.foldl (fun s c => s.erase c) (l.erase r) := rfl
    rw [this, ih (l.erase r) (hl.erase r), hl.erase_eq_filter r,
      List.filter_filter]
    refine List.filter_congr ?_
    intro x _
    by_cases hx : x = r
    · simp [hx, List.contains_cons]
    · simp [hx, List.contains_cons, bne]

lemma broadcast_eq_filter (fails : Nat → Nat → Bool) {clients : List Nat}
    (chunk : Nat) (h : clients.Nodup) :
    broadcast fails clients chunk = clients.filter fun c => !fails c chunk := by
  rw [broadcast, foldl_erase_eq_filter _ _ h]
  refine List.filter_congr ?_
  intro x hx
  by_cases hf : fails x chunk
  · simp [to_remove, List.mem_filter, hx, hf]
  · simp [to_remove, List.mem_filter, hf]

lemma mem_broadcast_iff (fails : Nat → Nat → Bool) {clients : List Nat}
    (chunk : Nat) (h : clients.Nodup) (c : Nat) :
    c ∈ broadcast fails clients chunk ↔ c ∈ clients ∧ fails c chunk = false := by
  rw [broadcast_eq_filter fails chunk h]
  simp [List.mem_filter]

lemma mem_of_mem_foldl_erase [DecidableEq α] :
    ∀ (rem l : List α) (c : α),
      c ∈ rem.foldl (fun s x => s.erase x) l → c ∈ l := by
  intro rem
  induction rem with
  | nil => intro l c h; exact h
  | cons r rem ih =>
    intro l c h
    exact List.mem_of_mem_erase (ih (l.erase r) c h)

lemma broadcast_subset (fails : Nat → Nat → Bool) (clients : List Nat)
    (chunk : Nat) (c : Nat) (h : c ∈ broadcast fails clients chunk) :
    c ∈ clients :=
  mem_of_mem_foldl_erase (to_remove fails clients chunk) clients c h

lemma broadcast_nodup (fails : Nat → Nat → Bool) {clients : List Nat}
    (chunk : Nat) (h : clients.Nodup) :
    (broadcast fails clients chunk).Nodup := by
  rw [broadcast_eq_filter fails chunk h]
  exact h.filter _

lemma mem_attempts_iff (clients : List Nat) (chunk : Nat) (x ch2 : Nat) :
    (x, ch2) ∈ attempts clients chunk ↔ x ∈ clients ∧ ch2 = chunk := by
  unfold attempts
  rw [List.mem_map]
  constructor
  · rintro ⟨a, ha, he⟩
    cases he
    exact ⟨ha, rfl⟩
  · rintro ⟨hx, rfl⟩
    exact ⟨x, hx, rfl⟩

lemma count_attempts_of_mem :
    ∀ (clients : List Nat) (chunk c : Nat), clients.Nodup → c ∈ clients →
      List.count (c, chunk) (attempts clients chunk) = 1 := by
  intro clients
  induction clients with
  | nil => intro chunk c _ hc; exact absurd hc (by simp)
  | cons x cs ih =>
    intro chunk c hnd hc
    have hstep : attempts (x :: cs) chunk = (x, chunk) :: attempts cs chunk := rfl
    rw [hstep, List.count_cons]
    by_cases hxc : c = x
    · subst hxc
      have hnm : (c, chunk) ∉ attempts cs chunk := by
        intro hmem
        exact (List.nodup_cons.mp hnd).1
          ((mem_attempts_iff cs chunk c chunk).mp hmem).1

      rw [List.count_eq_zero.mpr hnm]
      simp
    · have hc2 : c ∈ cs := by
        rcases List.mem_cons.mp hc with h | h
        · exact absurd h hxc
        · exact h
      rw [ih chunk c (List.nodup_cons.mp hnd).2 hc2]
      simp [beq_iff_eq, Ne.symm hxc]

lemma brun_survivor (fails : Nat → Nat → Bool) :
    ∀ (chunks : List Nat) (st : BState), st.clients.Nodup →
      ∀ c, c ∈ (brun fails chunks st).clients →
        c ∈ st.clients ∧ (brun fails chunks st).rcv c = st.rcv c ++ chunks := by
  intro chunks
  induction chunks with
  | nil => intro st _ c hc; exact ⟨hc, (List.append_nil _).symm⟩
  | cons ch rest ih =>
    intro st hnd c hc
    have hnd1 : (bstep fails st ch).clients.Nodup := broadcast_nodup fails ch hnd
    obtain ⟨hc1, hr1⟩ := ih (bstep fails st ch) hnd1 c hc
    have hmem : c ∈ st.clients ∧ fails c ch = false :=
      (mem_broadcast_iff fails ch hnd c).mp hc1
    refine ⟨hmem.1, ?_⟩
    have : (bstep fails st ch).rcv c = st.rcv c ++ [ch] := by
      simp [bstep, hmem.1, hmem.2]
    rw [brun, hr1, this, List.append_assoc]
    rfl

lemma btrace_not_mem (fails : Nat → Nat → Bool) :
    ∀ (chunks : List Nat) (st : BState) (c : Nat), c ∉ st.clients →
      ∀ ch2, (c, ch2) ∉ btrace fails chunks st := by
  intro chunks
  induction chunks with
  | nil => intro st c _ ch2 h; exact absurd h (by simp [btrace])
  | cons ch rest ih =>
    intro st c hc ch2 h
    rw [btrace, List.mem_append] at h
    rcases h with h | h
    · exact hc ((mem_attempts_iff st.clients ch c ch2).mp h).1
    · have hc1 : c ∉ (bstep fails st ch).clients := fun hx =>
        hc (broadcast_subset fails st.clients ch c hx)
      exact ih (bstep fails st ch) c hc1 ch2 h

/-! ### Scheduler lemmas -/

lemma choice_mem {l : List α} (h : l ≠ []) (k : Nat) :
    ∃ x, choice k l = some x ∧ x ∈ l := by
  have hl : 0 < l.length := List.length_pos.mpr h
  have hk : k % l.length < l.length := Nat.mod_lt _ hl
  refine ⟨l.get ⟨k % l.length, hk⟩, ?_, List.get_mem l _ hk⟩
  simp [choice, List.getElem?_eq_getElem hk]

lemma reshuffle_if_tracks_perm (e : RandState) (st : Catalog) :
    List.Perm (reshuffle_if e st).tracks st.tracks := by
  unfold reshuffle_if
  split
  · exact shuffle_perm e.js1 st.tracks
  · exact List.Perm.refl _

lemma reshuffle_if_album_perm (e : RandState) (st : Catalog) :
    List.Perm (reshuffle_if e st).album_tracks st.album_tracks := by
  unfold reshuffle_if
  split
  · exact shuffle_perm e.js2 st.album_tracks
  · exact List.Perm.refl _

lemma next_track_succ (env : Nat → RandState) (fss : Nat → FS)
    (d fuel : Nat) (st : Catalog) :
    next_track env fss d (fuel + 1) st =
      if (env d).draw < ALBUM_TRACK_CHANCE ∧
          (reshuffle_if (env d) st).album_tracks ≠ [] then
        (choice (env d).aIdx (reshuffle_if (env d) st).album_tracks).map
          fun t => (t, reshuffle_if (env d) st)
      else if (reshuffle_if (env d) st).tracks ≠ [] then
        (choice (env d).gIdx (reshuffle_if (env d) st).tracks).map
          fun t => (t, reshuffle_if (env d) st)
      else
        next_track env fss (d + 1) fuel
          (load_tracks (fss d) (env d).ljs1 (env d).ljs2 (reshuffle_if (env d) st)) :=
  rfl

/-! ### Streaming-loop lemmas -/

lemma play_loop_bound :
    ∀ (evs : List PlayEv) (n : Nat), n < max_empty_reads →
      (play_loop evs n).counter ≤ max_empty_reads ∧
      ((play_loop evs n).stop = .stalled →
        (play_loop evs n).counter = max_empty_reads) := by
  intro evs
  induction evs with
  | nil =>
    intro n hn
    exact ⟨Nat.le_of_lt hn, fun h => by simp [play_loop] at h⟩
  | cons ev rest ih =>
    intro n hn
    cases ev with
    | exited c =>
      exact ⟨Nat.le_of_lt hn, fun h => by simp [play_loop] at h⟩
    | chunk b =>
      have h0 := ih 0 (by simp [max_empty_reads])
      exact ⟨h0.1, fun h => h0.2 h⟩
    | empty =>
      by_cases hge : n + 1 ≥ max_empty_reads
      · constructor
        · simp [play_loop, hge]; omega
        · intro _; simp [play_loop, hge]; omega
      · have := ih (n + 1) (by omega)
        simpa [play_loop, hge] using this
    | timeout =>
      by_cases hge : n + 1 ≥ max_empty_reads
      · constructor
        · simp [play_loop, hge]; omega
        · intro _; simp [play_loop, hge]; omega
      · have := ih (n + 1) (by omega)
        simpa [play_loop, hge] using this

lemma play_loop_stalled_append :
    ∀ (evs : List PlayEv) (n : Nat) (more : List PlayEv),
      (play_loop evs n).stop = .stalled →
      play_loop (evs ++ more) n =
        ⟨(play_loop evs n).broadcasts, (play_loop evs n).counter, .stalled,
         (play_loop evs n).leftover ++ more⟩ := by
  intro evs
  induction evs with
  | nil =>
    intro n more h
    simp [play_loop] at h
  | cons ev rest ih =>
    intro n more h
    cases ev with
    | exited c => simp [play_loop] at h
    | chunk b =>
      have hs : (play_loop rest 0).stop = .stalled := by
        simpa [play_loop] using h
      have := ih 0 more hs
      simp [play_loop, this, hs]
    | empty =>
      by_cases hge : n + 1 ≥ max_empty_reads
      · simp [play_loop, hge]
      · have hs : (play_loop rest (n + 1)).stop = .stalled := by
          simpa [play_loop, hge] using h
        have := ih (n + 1) more hs
        simpa [play_loop, hge] using this
    | timeout =>
      by_cases hge : n + 1 ≥ max_empty_reads
      · simp [play_loop, hge]
      · have hs : (play_loop rest (n + 1)).stop = .stalled := by
          simpa [play_loop, hge] using h
        have := ih (n + 1) more hs
        simpa [play_loop, hge] using this

/-! ### Claim theorems -/

/-- Claim C1: with both pools empty and every reload yielding empty
pools, the claim says `_next_track` terminates within a bounded number of
attempts and fails with `CatalogEmptyError`. The code instead recurses at
line 56 with no bound: for every recursion budget `fuel` the call fails
to produce a result, and no `CatalogEmptyError` exists anywhere in the
code — the recursion outlives every bound (a stack-overflow hazard, as
the spec itself flags in §9). -/
theorem next_track_empty_catalog_never_returns
    (env : Nat → RandState) (fss : Nat → FS) (st : Catalog)
    (hg : st.tracks = []) (ha : st.album_tracks = [])
    (hf : ∀ k, globTopLevel (fss k) = [] ∧ globAlbums (fss k) = []) :
    ∀ fuel d, next_track env fss d fuel st = none := by
  have main : ∀ (fuel : Nat) (st2 : Catalog), st2.tracks = [] →
      st2.album_tracks = [] → ∀ d, next_track env fss d fuel st2 = none := by
    intro fuel
    induction fuel with
    | zero => intro st2 _ _ d; rfl
    | succ fuel ih =>
      intro st2 hg2 ha2 d
      rw [next_track_succ]
      have h1 : (reshuffle_if (env d) st2).tracks = [] := by
        have hp := reshuffle_if_tracks_perm (env d) st2
        rw [hg2] at hp
        exact hp.eq_nil
      have h2 : (reshuffle_if (env d) st2).album_tracks = [] := by
        have hp := reshuffle_if_album_perm (env d) st2
        rw [ha2] at hp
        exact hp.eq_nil
      rw [if_neg (by simp [h2]), if_neg (by simp [h1])]
      exact ih _ (by simp [load_tracks, (hf d).1, shuffle_nil])
        (by simp [load_tracks, (hf d).2, shuffle_nil]) (d + 1)
  exact fun fuel d => main fuel st hg ha d

/-- Witness for C1: a concrete empty catalog over an empty directory;
even with a budget of 100 recursive attempts, no result and no error
value is produced. -/
theorem next_track_empty_catalog_never_returns_witness :
    next_track (fun _ => ⟨0, 0, 0, 0, [], [], [], []⟩) (fun _ => [])
      0 100 ⟨[], [], 0⟩ = none :=
  next_track_empty_catalog_never_returns (fun _ => ⟨0, 0, 0, 0, [], [], [], []⟩)
    (fun _ => []) ⟨[], [], 0⟩ rfl rfl (fun _ => ⟨rfl, rfl⟩) 100 0

/-- Claim C5: the reshuffle operation (lines 47-48 of `_next_track`:
`_shuffle_tracks()` followed by `self.last_shuffle_time =
datetime.now()`) leaves the multiset of each pool unchanged — the pools
are permuted independently — and resets `last_shuffle_time` to the
current time, a value ≥ the previous one whenever the clock is
monotone. -/
theorem reshuffle_permutes_and_stamps
    (js1 js2 : List Nat) (now : Int) (st : Catalog)
    (hclock : st.last_shuffle_time ≤ now) :
    List.Perm (reshuffle js1 js2 now st).tracks st.tracks ∧
    List.Perm (reshuffle js1 js2 now st).album_tracks st.album_tracks ∧
    ((reshuffle js1 js2 now st).tracks : Multiset Track) = (st.tracks : Multiset Track) ∧
    ((reshuffle js1 js2 now st).album_tracks : Multiset Track) = (st.album_tracks : Multiset Track) ∧
    (reshuffle js1 js2 now st).last_shuffle_time = now ∧
    st.last_shuffle_time ≤ (reshuffle js1 js2 now st).last_shuffle_time := by
  refine ⟨shuffle_perm js1 st.tracks, shuffle_perm js2 st.album_tracks, ?_, ?_, rfl, hclock⟩
  · exact Multiset.coe_eq_coe.mpr (shuffle_perm js1 st.tracks)
  · exact Multiset.coe_eq_coe.mpr (shuffle_perm js2 st.album_tracks)

/-- Witness for C5 at a concrete catalog and clock instant. -/
theorem reshuffle_permutes_and_stamps_witness :
    List.Perm (reshuffle [1] [] 5 ⟨[["a"], ["b"]], [], 0⟩).tracks [["a"], ["b"]] ∧
    (reshuffle [1] [] 5 ⟨[["a"], ["b"]], [], 0⟩).last_shuffle_time = 5 := by
  have h := reshuffle_permutes_and_stamps [1] [] 5 ⟨[["a"], ["b"]], [], 0⟩ (by decide)
  exact ⟨h.1, h.2.2.2.2.1⟩

/-- Claim C6: with a non-empty general pool, `_next_track` returns a
track drawn from one of the two pools: from the album pool exactly when
the uniform draw is below `ALBUM_TRACK_CHANCE` and the album pool is
non-empty, and from the general pool in every other case; membership in
the originating pool means a track is never drawn from an empty pool. -/
theorem next_track_pool_selection
    (env : Nat → RandState) (fss : Nat → FS) (d fuel : Nat) (st : Catalog)
    (hg : st.tracks ≠ []) :
    ∃ t st2, next_track env fss d (fuel + 1) st = some (t, st2) ∧
      ((env d).draw < ALBUM_TRACK_CHANCE ∧ st.album_tracks ≠ [] →
        t ∈ st.album_tracks) ∧
      (¬((env d).draw < ALBUM_TRACK_CHANCE ∧ st.album_tracks ≠ []) →
        t ∈ st.tracks) := by
  rw [next_track_succ]
  have hpa := reshuffle_if_album_perm (env d) st
  have hpt := reshuffle_if_tracks_perm (env d) st
  by_cases hc : (env d).draw < ALBUM_TRACK_CHANCE ∧ st.album_tracks ≠ []
  · have hne : (reshuffle_if (env d) st).album_tracks ≠ [] := by
      intro h0
      rw [h0] at hpa
      exact hc.2 hpa.symm.eq_nil
    rw [if_pos ⟨hc.1, hne⟩]
    obtain ⟨x, hx, hxm⟩ := choice_mem hne (env d).aIdx
    refine ⟨x, reshuffle_if (env d) st, ?_, fun _ => hpa.mem_iff.mp hxm,
      fun hnc => absurd hc hnc⟩
    rw [hx]
    rfl
  · have hcS : ¬((env d).draw < ALBUM_TRACK_CHANCE ∧
        (reshuffle_if (env d) st).album_tracks ≠ []) := by
      intro h
      refine hc ⟨h.1, fun h0 => h.2 ?_⟩
      rw [h0] at hpa
      exact hpa.eq_nil
    rw [if_neg hcS]
    have hneT : (reshuffle_if (env d) st).tracks ≠ [] := by
      intro h0
      rw [h0] at hpt
      exact hg hpt.symm.eq_nil
    rw [if_pos hneT]
    obtain ⟨x, hx, hxm⟩ := choice_mem hneT (env d).gIdx
    refine ⟨x, reshuffle_if (env d) st, ?_, fun hcc => absurd hcc hc,
      fun _ => hpt.mem_iff.mp hxm⟩
    rw [hx]
    rfl

/-- Witness for C6: one general track, empty album pool, draw 1/2. -/
theorem next_track_pool_selection_witness :
    ∃ t st2,
      next_track (fun _ => ⟨0, 1/2, 0, 0, [], [], [], []⟩) (fun _ => []) 0 1
        ⟨[["a.mp3"]], [], 0⟩ = some (t, st2) ∧
      (((fun (_ : Nat) => (⟨0, 1/2, 0, 0, [], [], [], []⟩ : RandState)) 0).draw <
          ALBUM_TRACK_CHANCE ∧
          (⟨[["a.mp3"]], [], 0⟩ : Catalog).album_tracks ≠ [] →
        t ∈ (⟨[["a.mp3"]], [], 0⟩ : Catalog).album_tracks) ∧
      (¬(((fun (_ : Nat) => (⟨0, 1/2, 0, 0, [], [], [], []⟩ : RandState)) 0).draw <
          ALBUM_TRACK_CHANCE ∧
          (⟨[["a.mp3"]], [], 0⟩ : Catalog).album_tracks ≠ []) →
        t ∈ (⟨[["a.mp3"]], [], 0⟩ : Catalog).tracks) :=
  next_track_pool_selection (fun _ => ⟨0, 1/2, 0, 0, [], [], [], []⟩)
    (fun _ => []) 0 0 ⟨[["a.mp3"]], [], 0⟩ (by simp)

/-- Claim C7 counterexample: for a listener already present in the set,
`register_client` is a no-op but `unregister_client` then removes it, so
the pair does not restore the prior state — refuting the claim's "for
every prior listener-set state". -/
theorem register_unregister_changes_present_listener :
    unregister_client 0 (register_client 0 [0]) ≠ [0] := by decide

/-- Claim C7 (amended): `register_client` followed immediately by
`unregister_client` for the same listener restores the prior client set,
provided the listener was not already registered. -/
theorem register_unregister_roundtrip
    (c : Nat) (clients : List Nat) (h : c ∉ clients) :
    unregister_client c (register_client c clients) = clients := by
  unfold register_client unregister_client
  rw [if_neg h, List.erase_append_right [c] h]
  simp

/-- Witness for the amended C7 at a concrete set. -/
theorem register_unregister_roundtrip_witness :
    unregister_client 2 (register_client 2 [0, 1]) = [0, 1] :=
  register_unregister_roundtrip 2 [0, 1] (by decide)

/-- Claim C8: the `finally` block of `_play_track` requests termination
whenever the process has not exited yet, waits for the exit when
termination succeeds, and treats a `ProcessLookupError` (process already
gone) as success: in that case — as in every case — the session ends
normally and the playback loop proceeds. -/
theorem drain_process_always_ends_normally
    (rc : Option Int) (tb : TermBehavior) :
    (drain_process rc tb).endedNormally = true ∧
    (rc = none → (drain_process rc tb).requested = true) ∧
    (rc = none → tb = TermBehavior.ok → (drain_process rc tb).waited = true) ∧
    (rc = none → tb = TermBehavior.procGone →
      (drain_process rc tb).requested = true ∧
      (drain_process rc tb).endedNormally = true) := by
  cases rc <;> cases tb <;> simp [drain_process]

/-- Witness for C8: the process-already-gone case ends normally. -/
theorem drain_process_always_ends_normally_witness :
    (drain_process none TermBehavior.procGone).requested = true ∧
    (drain_process none TermBehavior.procGone).endedNormally = true :=
  (drain_process_always_ends_normally none TermBehavior.procGone).2.2.2 rfl rfl

/-- Claim C2: one `broadcast(chunk)` call attempts the write exactly once
for each listener in the client set at the start of the call and for no
other listener, and across a sequence of `broadcast` calls a listener
that survives them all receives exactly the broadcast chunks, in the
order the calls were made. -/
theorem broadcast_exactly_once_in_order
    (fails : Nat → Nat → Bool) (st : BState) (chunk c : Nat)
    (chunks : List Nat) (hnd : st.clients.Nodup) :
    (c ∈ st.clients → List.count (c, chunk) (attempts st.clients chunk) = 1) ∧
    (c ∉ st.clients → ∀ ch2, (c, ch2) ∉ attempts st.clients chunk) ∧
    (∀ x ch2, (x, ch2) ∈ attempts st.clients chunk → x ∈ st.clients ∧ ch2 = chunk) ∧
    (c ∈ st.clients → c ∈ (brun fails chunks st).clients →
      (brun fails chunks st).rcv c = st.rcv c ++ chunks) := by
  refine ⟨?_, ?_, ?_, ?_⟩
  · intro hc
    exact count_attempts_of_mem st.clients chunk c hnd hc
  · intro hc ch2 hm
    exact hc ((mem_attempts_iff _ _ _ _).mp hm).1
  · intro x ch2 hm
    exact (mem_attempts_iff _ _ _ _).mp hm
  · intro _ hsurv
    exact (brun_survivor fails chunks st hnd c hsurv).2

/-- Witness for C2: two listeners, no failures, two chunks delivered in
order. -/
theorem broadcast_exactly_once_in_order_witness :
    List.count (1, 7) (attempts [1, 2] 7) = 1 ∧
    (brun (fun _ _ => false) [5, 6] ⟨[1, 2], fun _ => []⟩).rcv 1 = [5, 6] := by
  have h := broadcast_exactly_once_in_order (fun _ _ => false)
    ⟨[1, 2], fun _ => []⟩ 7 1 [5, 6] (by decide)
  exact ⟨h.1 (by decide), h.2.2.2 (by decide) (by decide)⟩

/-- Claim C3: a listener whose write raises during `broadcast` is
collected in `to_remove` and discarded only after the full pass: the call
returns normally with the client set equal to the previous set minus
exactly the failed writers, the failed listener is absent when the call
returns, and no subsequent `broadcast` call ever attempts a write to
it. -/
theorem broadcast_failed_writer_removed
    (fails : Nat → Nat → Bool) (st : BState) (chunk c : Nat)
    (hnd : st.clients.Nodup) (hc : c ∈ st.clients)
    (hf : fails c chunk = true) :
    c ∈ to_remove fails st.clients chunk ∧
    (bstep fails st chunk).clients = st.clients.filter (fun x => !fails x chunk) ∧
    c ∉ (bstep fails st chunk).clients ∧
    (∀ chunks ch2, (c, ch2) ∉ btrace fails chunks (bstep fails st chunk)) := by
  have heq : (bstep fails st chunk).clients
      = st.clients.filter (fun x => !fails x chunk) :=
    broadcast_eq_filter fails chunk hnd
  have hnm : c ∉ (bstep fails st chunk).clients := by
    rw [heq]
    simp [List.mem_filter, hf]
  refine ⟨?_, heq, hnm, fun chunks ch2 => btrace_not_mem fails chunks _ c hnm ch2⟩
  unfold to_remove
  exact List.mem_filter.mpr ⟨hc, hf⟩

/-- Witness for C3: listener 2 fails its write and is gone on return. -/
theorem broadcast_failed_writer_removed_witness :
    (bstep (fun cl _ => cl == 2) ⟨[1, 2], fun _ => []⟩ 7).clients = [1] ∧
    2 ∉ (bstep (fun cl _ => cl == 2) ⟨[1, 2], fun _ => []⟩ 7).clients := by
  have h := broadcast_failed_writer_removed (fun cl _ => cl == 2)
    ⟨[1, 2], fun _ => []⟩ 7 2 (by decide) (by decide) (by decide)
  refine ⟨?_, h.2.2.1⟩
  rw [h.2.1]
  decide

/-- Claim C9: `broadcast` never adds a listener: the resulting client set
is exactly the initial set minus the failed writers — in particular a
subset of the initial set — and when no write fails, or the set is empty,
the set is unchanged. -/
theorem broadcast_frame
    (fails : Nat → Nat → Bool) (clients : List Nat) (chunk : Nat)
    (hnd : clients.Nodup) :
    broadcast fails clients chunk = clients.filter (fun c => !fails c chunk) ∧
    (∀ c, c ∈ broadcast fails clients chunk → c ∈ clients) ∧
    ((∀ c ∈ clients, fails c chunk = false) →
      broadcast fails clients chunk = clients) ∧
    broadcast fails [] chunk = [] := by
  refine ⟨broadcast_eq_filter fails chunk hnd,
    fun c => broadcast_subset fails clients chunk c, ?_, rfl⟩
  intro hall
  rw [broadcast_eq_filter fails chunk hnd]
  apply List.filter_eq_self.mpr
  intro a ha
  simp [hall a ha]

/-- Witness for C9: a failing member is dropped, a clean pass is the
identity. -/
theorem broadcast_frame_witness :
    broadcast (fun cl _ => cl == 2) [1, 2, 3] 7 = [1, 3] ∧
    broadcast (fun _ _ => false) [1, 2, 3] 7 = [1, 2, 3] := by
  have h1 := broadcast_frame (fun cl _ => cl == 2) [1, 2, 3] 7 (by decide)
  have h2 := broadcast_frame (fun _ _ => false) [1, 2, 3] 7 (by decide)
  refine ⟨?_, h2.2.2.1 (by decide)⟩
  rw [h1.1]
  decide

/-- Claim C4: in the streaming loop of `_play_track`, a successful
non-empty read resets `consecutive_empty_reads` to zero and hands the
chunk to the broadcaster; every empty read and every timeout increments
the counter; the loop stops the moment the counter reaches
`max_empty_reads = 10` — the counter never exceeds 10, a stalled stop
carries exactly 10, and once stalled no later event of the script is ever
consumed. -/
theorem play_loop_stall_behavior
    (rest more : List PlayEv) (n b : Nat) :
    (play_loop (PlayEv.chunk b :: rest) n =
      ⟨b :: (play_loop rest 0).broadcasts, (play_loop rest 0).counter,
       (play_loop rest 0).stop, (play_loop rest 0).leftover⟩) ∧
    (n + 1 < max_empty_reads →
      play_loop (PlayEv.empty :: rest) n = play_loop rest (n + 1) ∧
      play_loop (PlayEv.timeout :: rest) n = play_loop rest (n + 1)) ∧
    (n + 1 ≥ max_empty_reads →
      play_loop (PlayEv.empty :: rest) n = ⟨[], n + 1, StopReason.stalled, rest⟩ ∧
      play_loop (PlayEv.timeout :: rest) n = ⟨[], n + 1, StopReason.stalled, rest⟩) ∧
    (n < max_empty_reads →
      (play_loop rest n).counter ≤ max_empty_reads ∧
      ((play_loop rest n).stop = StopReason.stalled →
        (play_loop rest n).counter = max_empty_reads)) ∧
    ((play_loop rest n).stop = StopReason.stalled →
      play_loop (rest ++ more) n =
        ⟨(play_loop rest n).broadcasts, (play_loop rest n).counter,
         StopReason.stalled, (play_loop rest n).leftover ++ more⟩) := by
  refine ⟨rfl, ?_, ?_, play_loop_bound rest n, play_loop_stalled_append rest n more⟩
  · intro hlt
    constructor
    · simp only [play_loop]
      rw [if_neg (by omega)]
    · simp only [play_loop]
      rw [if_neg (by omega)]
  · intro hge
    constructor
    · simp only [play_loop]
      rw [if_pos hge]
    · simp only [play_loop]
      rw [if_pos hge]

/-- Witness for C4: concrete chunk, increment, and stall instances. -/
theorem play_loop_stall_behavior_witness :
    play_loop [PlayEv.chunk 42] 3 =
      ⟨42 :: (play_loop [] 0).broadcasts, (play_loop [] 0).counter,
       (play_loop [] 0).stop, (play_loop [] 0).leftover⟩ ∧
    play_loop [PlayEv.empty] 3 = play_loop [] 4 ∧
    play_loop [PlayEv.empty] 9 = ⟨[], 10, StopReason.stalled, []⟩ := by
  have h3 := play_loop_stall_behavior [] [] 3 42
  have h9 := play_loop_stall_behavior [] [] 9 42
  exact ⟨h3.1, (h3.2.1 (by decide)).1, (h9.2.2.1 (by decide)).1⟩

/-- Claim C10 counterexample: `Path.glob('*.mp3')` matches entries by
name only, not by file type; a directory named `a.mp3` at the top level
enters the general pool, so the pool is not "exactly the `.mp3` files at
the top level". -/
theorem load_tracks_dir_counterexample :
    (load_tracks [⟨"a.mp3", true, []⟩] [] [] ⟨[], [], 0⟩).tracks ≠
      mp3FilesTopLevel [⟨"a.mp3", true, []⟩] := by decide

/-- Claim C10 (amended): `_load_tracks` populates the pools exclusively
with entries whose names match `*.mp3` (entries of any type, not only
files): the general pool holds exactly the matching top-level entries,
the album pool exactly the matching entries directly inside top-level
directories, and every pool element is a path of depth 1 resp. 2 — so
anything nested more than one directory level down, and anything not
matching `*.mp3`, is excluded. -/
theorem load_tracks_pools_characterization
    (fs : FS) (js1 js2 : List Nat) (st : Catalog) (t : Track) :
    List.Perm (load_tracks fs js1 js2 st).tracks (globTopLevel fs) ∧
    List.Perm (load_tracks fs js1 js2 st).album_tracks (globAlbums fs) ∧
    (t ∈ (load_tracks fs js1 js2 st).tracks ↔
      ∃ e ∈ fs, isMp3 e.name = true ∧ t = [e.name]) ∧
    (t ∈ (load_tracks fs js1 js2 st).album_tracks ↔
      ∃ f ∈ fs, f.isDir = true ∧
        ∃ c ∈ f.children, isMp3 c.name = true ∧ t = [f.name, c.name]) ∧
    (t ∈ (load_tracks fs js1 js2 st).tracks → t.length = 1) ∧
    (t ∈ (load_tracks fs js1 js2 st).album_tracks → t.length = 2) := by
  have hpt : List.Perm (load_tracks fs js1 js2 st).tracks (globTopLevel fs) :=
    shuffle_perm js1 (globTopLevel fs)
  have hpa : List.Perm (load_tracks fs js1 js2 st).album_tracks (globAlbums fs) :=
    shuffle_perm js2 (globAlbums fs)
  have hmt : t ∈ (load_tracks fs js1 js2 st).tracks ↔
      ∃ e ∈ fs, isMp3 e.name = true ∧ t = [e.name] := by
    rw [hpt.mem_iff]
    simp only [globTopLevel, List.mem_map, List.mem_filter]
    constructor
    · rintro ⟨e, ⟨he, hm⟩, rfl⟩
      exact ⟨e, he, hm, rfl⟩
    · rintro ⟨e, he, hm, rfl⟩
      exact ⟨e, ⟨he, hm⟩, rfl⟩
  have hma : t ∈ (load_tracks fs js1 js2 st).album_tracks ↔
      ∃ f ∈ fs, f.isDir = true ∧
        ∃ c ∈ f.children, isMp3 c.name = true ∧ t = [f.name, c.name] := by
    rw [hpa.mem_iff]
    simp only [globAlbums, album_folders, List.mem_flatMap, List.mem_map,
      List.mem_filter]
    constructor
    · rintro ⟨f, ⟨hf, hd⟩, c, ⟨hcm, hmp⟩, rfl⟩
      exact ⟨f, hf, hd, c, hcm, hmp, rfl⟩
    · rintro ⟨f, hf, hd, c, hcm, hmp, rfl⟩
      exact ⟨f, ⟨hf, hd⟩, c, ⟨hcm, hmp⟩, rfl⟩
  refine ⟨hpt, hpa, hmt, hma, ?_, ?_⟩
  · intro h
    obtain ⟨e, _, _, rfl⟩ := hmt.mp h
    rfl
  · intro h
    obtain ⟨f, _, _, c, _, _, rfl⟩ := hma.mp h
    rfl

/-- Witness for the amended C10: a matching file lands in the general
pool, a matching album entry lands in the album pool. -/
theorem load_tracks_pools_characterization_witness :
    (["x.mp3"] : Track) ∈
      (load_tracks [⟨"x.mp3", false, []⟩, ⟨"alb", true, [⟨"y.mp3", false, []⟩]⟩]
        [] [] ⟨[], [], 0⟩).tracks ∧
    (["alb", "y.mp3"] : Track) ∈
      (load_tracks [⟨"x.mp3", false, []⟩, ⟨"alb", true, [⟨"y.mp3", false, []⟩]⟩]
        [] [] ⟨[], [], 0⟩).album_tracks := by
  have hx := load_tracks_pools_characterization
    [⟨"x.mp3", false, []⟩, ⟨"alb", true, [⟨"y.mp3", false, []⟩]⟩] [] []
    ⟨[], [], 0⟩ ["x.mp3"]
  have hy := load_tracks_pools_characterization
    [⟨"x.mp3", false, []⟩, ⟨"alb", true, [⟨"y.mp3", false, []⟩]⟩] [] []
    ⟨[], [], 0⟩ ["alb", "y.mp3"]
  refine ⟨hx.2.2.1.mpr ⟨⟨"x.mp3", false, []⟩, by decide, by decide, rfl⟩,
    hy.2.2.2.1.mpr ⟨⟨"alb", true, [⟨"y.mp3", false, []⟩]⟩, by decide, rfl,
      ⟨"y.mp3", false, []⟩, by decide, by decide, rfl⟩⟩

end RadioServer
